import Mathlib

/-!
Shallow embedding of `ngi_pipeline/engines/sarek/local_process_tracking.py`.

Strings are modelled as `List Char` (abbreviated `Str`). Filesystem paths
follow POSIX conventions; `pySplit` mirrors `os.path.split`. The external
collaborators consumed by this module (the tracking-store connector, the
Charon connector, the `ProcessStatus`/`JobStatus` probing machinery, the
Sarek path conventions and the `NGIProject` domain classes) live in other
files of the repository; where they are needed they are modelled from the
spec, as indicated in the respective doc comments. The effect of the
workflow on its collaborators is captured as a trace of `Event`s, and
exceptions raised by the Python code are captured with `Except`.
-/

abbrev Str := List Char

/-- POSIX `os.path.split`: split a path at its last slash; the tail is
everything after the last slash, the head is everything up to and
including it, with trailing slashes stripped from the head unless the
head consists only of slashes. A path with no slash splits into an empty
head and the whole path. -/
def pySplit (p : Str) : Str × Str :=
  let rev := p.reverse
  let tailRev := rev.takeWhile (fun c => decide (c ≠ '/'))
  if tailRev.length = p.length then ([], p)
  else
    let headWithSlash := (rev.drop tailRev.length).reverse
    let head :=
      if headWithSlash.all (fun c => decide (c = '/')) then headWithSlash
      else (headWithSlash.reverse.dropWhile (fun c => decide (c = '/'))).reverse
    (head, tailRev.reverse)

/-- POSIX `os.path.dirname`: the head component of `os.path.split`. -/
def os_path_dirname (p : Str) : Str :=
  (pySplit p).1

/-- The intermediate values computed by the path-parsing block of
`_project_from_fastq_file_paths` (source lines 83-89), one field per
local variable of the Python code. -/
structure ParsedFastqPath where
  seqrun_path : Str
  fastq_file_name : Str
  libprep_path : Str
  seqrun_name : Str
  sample_path : Str
  libprep_name : Str
  project_path : Str
  sample_name : Str
  project_data_path : Str
  project_name : Str
  project_base_path : Str
deriving DecidableEq

/-- The chain of `os.path.split` / `os.path.dirname` calls applied to one
fastq file path in `_project_from_fastq_file_paths`. -/
def parseFastqFilePath (fastq_file_path : Str) : ParsedFastqPath :=
  let s1 := pySplit fastq_file_path
  let s2 := pySplit s1.1
  let s3 := pySplit s2.1
  let s4 := pySplit s3.1
  let s5 := pySplit s4.1
  { seqrun_path := s1.1, fastq_file_name := s1.2
    libprep_path := s2.1, seqrun_name := s2.2
    sample_path := s3.1, libprep_name := s3.2
    project_path := s4.1, sample_name := s4.2
    project_data_path := s5.1, project_name := s5.2
    project_base_path := os_path_dirname s5.1 }

/-- Modelled from the spec: a seqrun node of the `NGIProject` hierarchy
(`ngi_pipeline.conductor.classes`, not under `src/`), holding its name,
directory name and the appended fastq file names. -/
structure NGISeqrun where
  name : Str
  dirname : Str
  fastq_files : List Str
deriving DecidableEq

/-- Modelled from the spec: a libprep node of the `NGIProject` hierarchy. -/
structure NGILibprep where
  name : Str
  dirname : Str
  seqruns : List NGISeqrun
deriving DecidableEq

/-- Modelled from the spec: a sample node of the `NGIProject` hierarchy. -/
structure NGISample where
  name : Str
  dirname : Str
  libpreps : List NGILibprep
deriving DecidableEq

/-- Modelled from the spec: the root of the project hierarchy, created by
`NGIProject(name, dirname, project_id, base_path)`. -/
structure NGIProject where
  name : Str
  dirname : Str
  project_id : Str
  base_path : Str
  samples : List NGISample
deriving DecidableEq

/-- Modelled from the spec: the get-or-create-by-name behaviour of the
`add_sample` / `add_libprep` / `add_seqrun` methods, which merge into the
hierarchy "deduplicating by name at each level". If a child keyed `key`
exists, `upd` is applied to the first such child; otherwise a fresh child
`mknew` is appended and `upd` applied to it. -/
def upsert (keyOf : α → Str) (key : Str) (mknew : α) (upd : α → α) : List α → List α
  | [] => [upd mknew]
  | x :: xs =>
    if keyOf x = key then upd x :: xs else x :: upsert keyOf key mknew upd xs

/-- The body of the loop of `_project_from_fastq_file_paths` after
parsing: `add_sample`, `add_libprep`, `add_seqrun` and `add_fastq_files`
applied for one parsed path (the add methods are modelled from the spec,
see `upsert`). -/
def addFastqPath (proj : NGIProject) (pp : ParsedFastqPath) : NGIProject :=
  { proj with samples :=
      (upsert (fun x => x.name) pp.sample_name
        ⟨pp.sample_name, pp.sample_name, []⟩
        (fun smp => { smp with libpreps :=
          (upsert (fun x => x.name) pp.libprep_name
            ⟨pp.libprep_name, pp.libprep_name, []⟩
            (fun lp => { lp with seqruns :=
              (upsert (fun x => x.name) pp.seqrun_name
                ⟨pp.seqrun_name, pp.seqrun_name, []⟩
                (fun sr => { sr with
                  fastq_files := sr.fastq_files ++ [pp.fastq_file_name] })
                lp.seqruns) })
            smp.libpreps) })
        proj.samples) }

/-- The loop body of `_project_from_fastq_file_paths` for one fastq file
path: parse the path, create the project object from its segments if
this is the first path (`project_obj = project_obj or NGIProject(...)`),
and merge the parsed sample/libprep/seqrun/file into it. -/
def buildStep (project_obj : Option NGIProject) (fastq_file_path : Str) : Option NGIProject :=
  let pp := parseFastqFilePath fastq_file_path
  let proj := project_obj.getD
    { name := pp.project_name, dirname := pp.project_name
      project_id := pp.project_name, base_path := pp.project_base_path
      samples := [] }
  some (addFastqPath proj pp)

/-- `_project_from_fastq_file_paths` (source lines 72-94): fold the loop
body over the fastq file paths; an empty input returns the initial
`None`. -/
def _project_from_fastq_file_paths (fastq_file_paths : List Str) : Option NGIProject :=
  fastq_file_paths.foldl buildStep none

/-- Modelled from the spec: the tri-state process outcome represented in
the source by the `ProcessRunning` / exited-with-success /
exited-with-error classes of `ngi_pipeline.engines.sarek.process` (not
under `src/`). -/
inductive ProcessOutcome where
  | running
  | finishedOk
  | finishedError
deriving DecidableEq

/-- Modelled from the spec: which probing class `get_analysis_status`
selects as `status_type` — the OS-process prober (`ProcessStatus`) or the
batch-job prober (`JobStatus`). -/
inductive StatusKind where
  | process
  | job
deriving DecidableEq

/-- Python `x or y` on optional integers: `None` and `0` are falsy, any
other integer is truthy. -/
def pyOrIds (a b : Option Int) : Option Int :=
  match a with
  | none => b
  | some x => if x = 0 then b else some x

/-- One record of the local tracking database, as yielded by
`TrackingConnector.tracked_analyses()` (connector not under `src/`;
fields modelled from the spec's TrackedAnalysis data model and the
attribute accesses in the source). -/
structure Analysis where
  project_id : Str
  sample_id : Str
  engine : Str
  workflow : Str
  project_base_path : Str
  process_id : Option Int
  slurm_job_id : Option Int
deriving DecidableEq

/-- Modelled from the spec: the external path-convention collaborator.
`sample_analysis_exit_code_path` stands for
`SarekAnalysis.get_analysis_type_for_workflow(workflow).sample_analysis_exit_code_path(project_base_path, project_id, sample_id)`
(not under `src/`): a deterministic function of the workflow name and the
three path arguments. -/
structure PathConventions where
  sample_analysis_exit_code_path : Str → Str → Str → Str → Str

/-- The arguments with which `get_analysis_status` invokes the external
status prober: the selected prober kind, the identifier
`analysis.process_id or analysis.slurm_job_id`, and the exit-code path. -/
structure ProbeCall where
  status_kind : StatusKind
  processid_or_jobid : Option Int
  exit_code_path : Str
deriving DecidableEq

/-- The probe invocation computed by `get_analysis_status` (source lines
112-124): `status_type` is the process prober iff
`analysis.process_id is not None`, the identifier is
`analysis.process_id or analysis.slurm_job_id`, and the exit-code path is
obtained from the path-convention collaborator. -/
def analysis_probe_call (pc : PathConventions) (analysis : Analysis) : ProbeCall :=
  { status_kind := if analysis.process_id.isSome then StatusKind.process else StatusKind.job
    processid_or_jobid := pyOrIds analysis.process_id analysis.slurm_job_id
    exit_code_path := pc.sample_analysis_exit_code_path analysis.workflow
      analysis.project_base_path analysis.project_id analysis.sample_id }

/-- `get_analysis_status`: hand the computed probe call to the external
prober (`get_type_from_processid_and_exit_code_path`, modelled as the
function argument `probe`). -/
def get_analysis_status (pc : PathConventions) (probe : ProbeCall → ProcessOutcome)
    (analysis : Analysis) : ProcessOutcome :=
  probe (analysis_probe_call pc analysis)

/-- An observable side effect of the workflow on its collaborators:
a `set_sample_analysis_status` call on the Charon connector (with its
arguments and whether the call succeeded), or a `remove_analysis` call on
the tracking connector. -/
inductive Event where
  | publish (analysis : Analysis) (status : Str) (restrict_to_libpreps : List Str)
      (restrict_to_seqruns : List (Str × List Str)) (ok : Bool)
  | remove (analysis : Analysis)
deriving DecidableEq

/-- `remove_analysis` (source lines 127-140): return without touching the
store when the status is `ProcessRunning` and `force` is not set,
otherwise call the tracking connector's `remove_analysis` (modelled as
the emitted `Event.remove`). -/
def remove_analysis (analysis : Analysis) (process_status : ProcessOutcome)
    (force : Bool) : List Event :=
  if process_status = ProcessOutcome.running ∧ force = false then []
  else [Event.remove analysis]

/-- The Python exceptions that can escape one iteration of the workflow
loop: `TypeError` (iterating over a `None` project), `IndexError`
(`pop()` on an empty filter result), or an error raised by the Charon
connector's publish call. -/
inductive PyError where
  | typeError
  | indexError
  | charonError
deriving DecidableEq

/-- The external collaborators of one reconciliation pass, modelled from
the spec: the path conventions and prober behind `get_analysis_status`;
`fastq_file_paths_for`, standing for the TSV collaborator composition
`sample_analysis_tsv_file` + `fastq_files_from_tsv_file` used by
`project_from_analysis` (not under `src/`);
`analysis_status_from_process_status`, the Charon connector's translation
of a process outcome into Charon's status vocabulary; and `publish_ok`,
whether the Charon `set_sample_analysis_status` call for this analysis
succeeds or raises. -/
structure Env where
  pathConv : PathConventions
  probeResult : ProbeCall → ProcessOutcome
  fastq_file_paths_for : Analysis → List Str
  analysis_status_from_process_status : ProcessOutcome → Str
  publish_ok : Analysis → Bool

/-- The process status the workflow computes for an analysis, via
`get_analysis_status`. -/
def Env.probe (env : Env) (analysis : Analysis) : ProcessOutcome :=
  get_analysis_status env.pathConv env.probeResult analysis

/-- `project_from_analysis` (source lines 97-109): obtain the fastq file
paths of the analysis from the TSV collaborator and rebuild the project
hierarchy from them. -/
def project_from_analysis (env : Env) (analysis : Analysis) : Option NGIProject :=
  _project_from_fastq_file_paths (env.fastq_file_paths_for analysis)

/-- One iteration of the loop of `update_charon_with_local_jobs_status`
(source lines 32-69): probe the status, rebuild the project, extract the
sample matching `analysis.sample_id` (`list(filter(...)).pop()`: the last
match, `IndexError` if none; `TypeError` if the project is `None`),
compute the libprep/seqrun restriction scopes, publish to Charon, and
call `remove_analysis` with `force=False`. The returned trace holds the
collaborator calls made before the iteration ended or raised. -/
def processOne (env : Env) (analysis : Analysis) : Except PyError Unit × List Event :=
  let process_status := env.probe analysis
  match project_from_analysis env analysis with
  | none => (Except.error PyError.typeError, [])
  | some project_obj =>
    match (project_obj.samples.filter
        (fun x => decide (x.name = analysis.sample_id))).getLast? with
    | none => (Except.error PyError.indexError, [])
    | some sample_obj =>
      let restrict_to_seqruns := sample_obj.libpreps.map
        (fun lp => (lp.name, lp.seqruns.map (fun sr => sr.name)))
      let restrict_to_libpreps := restrict_to_seqruns.map (fun kv => kv.1)
      let status := env.analysis_status_from_process_status process_status
      let ok := env.publish_ok analysis
      let publish_event := Event.publish analysis status restrict_to_libpreps
        restrict_to_seqruns ok
      if ok then
        (Except.ok (), publish_event :: remove_analysis analysis process_status false)
      else
        (Except.error PyError.charonError, [publish_event])

/-- `update_charon_with_local_jobs_status`: iterate the tracked analyses
sequentially. The loop body is not wrapped in any exception handler, so
an error raised in one iteration propagates to the caller and ends the
pass; the trace collects the collaborator calls made up to that point. -/
def update_charon_with_local_jobs_status (env : Env) :
    List Analysis → Except PyError Unit × List Event
  | [] => (Except.ok (), [])
  | analysis :: rest =>
    match processOne env analysis with
    | (Except.ok _, events) =>
      let tail := update_charon_with_local_jobs_status env rest
      (tail.1, events ++ tail.2)
    | (Except.error e, events) => (Except.error e, events)

/-- How many times the tracking store's remove was called for `analysis`
in a trace. -/
def removeCount (analysis : Analysis) (events : List Event) : Nat :=
  events.countP (fun e =>
    match e with
    | Event.remove a => decide (a = analysis)
    | Event.publish _ _ _ _ _ => false)

/-- Whether a trace contains a remove call for `analysis`. -/
def removedIn (analysis : Analysis) (events : List Event) : Bool :=
  events.any (fun e =>
    match e with
    | Event.remove a => decide (a = analysis)
    | Event.publish _ _ _ _ _ => false)

/-- Whether a trace contains a successful publish call for `analysis`. -/
def publishedOkIn (analysis : Analysis) (events : List Event) : Bool :=
  events.any (fun e =>
    match e with
    | Event.publish a _ _ _ ok => decide (a = analysis) && ok
    | Event.remove _ => false)

/-- Whether a trace contains any collaborator call for `analysis` at all
(evidence that the workflow attempted this analysis's publish/remove). -/
def attemptedIn (analysis : Analysis) (events : List Event) : Bool :=
  events.any (fun e =>
    match e with
    | Event.publish a _ _ _ _ => decide (a = analysis)
    | Event.remove a => decide (a = analysis))

/-- Whether the (optional) reconstructed project has a sample named `s`. -/
def hasSample (project_obj : Option NGIProject) (s : Str) : Bool :=
  match project_obj with
  | none => false
  | some proj => proj.samples.any (fun x => decide (x.name = s))

/-- Whether the (optional) reconstructed project has, under a sample
named `s`, a libprep named `lp`. -/
def hasLibprep (project_obj : Option NGIProject) (s lp : Str) : Bool :=
  match project_obj with
  | none => false
  | some proj => proj.samples.any (fun x =>
      decide (x.name = s) && x.libpreps.any (fun l => decide (l.name = lp)))

/-- Whether the (optional) reconstructed project has, under a sample
named `s` and a libprep named `lp`, a seqrun named `sr`. -/
def hasSeqrun (project_obj : Option NGIProject) (s lp sr : Str) : Bool :=
  match project_obj with
  | none => false
  | some proj => proj.samples.any (fun x =>
      decide (x.name = s) && x.libpreps.any (fun l =>
        decide (l.name = lp) && l.seqruns.any (fun r => decide (r.name = sr))))

/-- The name of the (optional) reconstructed project. -/
def projectName (project_obj : Option NGIProject) : Option Str :=
  project_obj.map (fun proj => proj.name)

/-- A path made of a directory part `x` and a final component `y`
(`x + "/" + y`), used to state how the parsing chain of
`_project_from_fastq_file_paths` decomposes well-formed fastq paths. -/
def joinSeg (x y : Str) : Str := x ++ '/' :: y

/-- A concrete path-convention collaborator for concrete runs. -/
def exPathConv : PathConventions :=
  ⟨fun w b p s => w ++ b ++ p ++ s⟩

/-- A concrete tracked analysis whose TSV lists no fastq files under
`exEnv`. -/
def exA1 : Analysis :=
  { project_id := "P1".toList, sample_id := "S1".toList, engine := "sarek".toList
    workflow := "SarekGermlineAnalysis".toList, project_base_path := "/base".toList
    process_id := some 11, slurm_job_id := none }

/-- A concrete tracked analysis with one fastq file under `exEnv`. -/
def exA2 : Analysis :=
  { project_id := "P1".toList, sample_id := "S2".toList, engine := "sarek".toList
    workflow := "SarekGermlineAnalysis".toList, project_base_path := "/base".toList
    process_id := none, slurm_job_id := some 42 }

/-- A concrete tracked analysis whose OS process id is the falsy `0`. -/
def exA0 : Analysis :=
  { project_id := "P1".toList, sample_id := "S3".toList, engine := "sarek".toList
    workflow := "SarekGermlineAnalysis".toList, project_base_path := "/base".toList
    process_id := some 0, slurm_job_id := none }

/-- A concrete environment: every probe reports a successfully finished
process, `exA1` has an empty fastq list, `exA2` a single fastq file, and
every publish call succeeds. -/
def exEnv : Env :=
  { pathConv := exPathConv
    probeResult := fun _ => ProcessOutcome.finishedOk
    fastq_file_paths_for := fun a =>
      if a.sample_id = "S1".toList then []
      else ["/base/data/P1/S2/LP1/SR1/f1.fastq.gz".toList]
    analysis_status_from_process_status := fun _ => "ANALYZED".toList
    publish_ok := fun _ => true }

instance : DecidableEq (Except PyError Unit) := fun a b =>
  match a, b with
  | Except.ok (), Except.ok () => isTrue rfl
  | Except.error e, Except.error f =>
    if h : e = f then isTrue (by rw [h]) else isFalse (by intro hc; cases hc; exact h rfl)
  | Except.ok _, Except.error _ => isFalse (by intro hc; cases hc)
  | Except.error _, Except.ok _ => isFalse (by intro hc; cases hc)

lemma takeWhile_append_all {p : Char → Bool} {b : Char} {l2 : List Char} :
    ∀ {l1 : List Char}, (∀ a ∈ l1, p a = true) → p b = false →
      (l1 ++ b :: l2).takeWhile p = l1
  | [], _, hb => by simp [List.takeWhile_cons, hb]
  | a :: l1, h, hb => by
    have ha : p a = true := h a (List.mem_cons_self a l1)
    simp only [List.cons_append, List.takeWhile_cons, ha, if_true]
    rw [takeWhile_append_all (fun x hx => h x (List.mem_cons_of_mem a hx)) hb]

/-- `os.path.split` of a path whose final component `y` has no slash and
whose directory part `x` is nonempty with no trailing slash recovers the
two parts exactly. -/
lemma pySplit_append (x y : Str) (hx : x ≠ []) (hxl : x.getLast? ≠ some '/')
    (hy : '/' ∉ y) : pySplit (x ++ '/' :: y) = (x, y) := by
  obtain ⟨c, t, hct⟩ : ∃ c t, x.reverse = c :: t := by
    cases hrev : x.reverse with
    | nil => exact absurd (List.reverse_eq_nil_iff.mp hrev) hx
    | cons c t => exact ⟨c, t, rfl⟩
  have hcx : c ∈ x := by
    have : c ∈ x.reverse := by rw [hct]; exact List.mem_cons_self c t
    exact List.mem_reverse.mp this
  have hc : ¬ c = '/' := by
    intro h
    apply hxl
    rw [← List.head?_reverse, hct, h]
    rfl
  have hrev : (x ++ '/' :: y).reverse = y.reverse ++ '/' :: x.reverse := by
    simp [List.reverse_append]
  have htw : (y.reverse ++ '/' :: x.reverse).takeWhile (fun ch => decide (ch ≠ '/'))
      = y.reverse := by
    refine takeWhile_append_all (fun a ha => ?_) (by simp)
    have : a ∈ y := List.mem_reverse.mp ha
    simp only [decide_eq_true_eq]
    intro h
    exact hy (h ▸ this)
  have hlen : ¬ (y.reverse.length = (x ++ '/' :: y).length) := by
    intro h
    rw [List.length_reverse, List.length_append, List.length_cons] at h
    omega
  have hdrop : (y.reverse ++ '/' :: x.reverse).drop y.reverse.length = '/' :: x.reverse :=
    List.drop_left y.reverse ('/' :: x.reverse)
  have hall : (('/' :: x.reverse).reverse.all (fun ch => decide (ch = '/'))) = false := by
    rw [Bool.eq_false_iff]
    intro hcontra
    rw [List.all_eq_true] at hcontra
    have := hcontra c (by simp [hcx])
    rw [decide_eq_true_eq] at this
    exact hc this
  have hdw : (('/' :: x.reverse).reverse.reverse.dropWhile (fun ch => decide (ch = '/')))
      = x.reverse := by
    rw [List.reverse_reverse]
    rw [List.dropWhile_cons]
    simp only [decide_True, if_true]
    rw [hct, List.dropWhile_cons]
    simp [hc]
  simp only [pySplit]
  rw [hrev, htw]
  rw [if_neg hlen]
  rw [hdrop, hall]
  simp only [Bool.false_eq_true, if_false]
  rw [hdw]
  simp

lemma joinSeg_ne_nil (x y : Str) : joinSeg x y ≠ [] := by
  simp [joinSeg]

lemma joinSeg_getLast? (x y : Str) (hy : y ≠ []) :
    (joinSeg x y).getLast? = y.getLast? := by
  obtain ⟨c, t, hct⟩ : ∃ c t, y.reverse = c :: t := by
    cases hrev : y.reverse with
    | nil => exact absurd (List.reverse_eq_nil_iff.mp hrev) hy
    | cons c t => exact ⟨c, t, rfl⟩
  rw [← List.head?_reverse, ← List.head?_reverse y]
  have : (joinSeg x y).reverse = y.reverse ++ '/' :: x.reverse := by
    simp [joinSeg, List.reverse_append]
  rw [this, hct]
  rfl

lemma getLast?_ne_slash {z : Str} (hz : z ≠ []) (hs : '/' ∉ z) :
    z.getLast? ≠ some '/' := by
  obtain ⟨c, t, hct⟩ : ∃ c t, z.reverse = c :: t := by
    cases hrev : z.reverse with
    | nil => exact absurd (List.reverse_eq_nil_iff.mp hrev) hz
    | cons c t => exact ⟨c, t, rfl⟩
  rw [← List.head?_reverse, hct]
  intro h
  have hcz : c ∈ z := List.mem_reverse.mp (by rw [hct]; exact List.mem_cons_self c t)
  have : c = '/' := by injection h
  exact hs (this ▸ hcz)

lemma pySplit_joinSeg (x y : Str) (hx : x ≠ []) (hxl : x.getLast? ≠ some '/')
    (hy : '/' ∉ y) : pySplit (joinSeg x y) = (x, y) :=
  pySplit_append x y hx hxl hy

lemma upsert_any_name {α : Type} (keyOf : α → Str) (key : Str) (mknew : α) (upd : α → α)
    (hupd : ∀ x, keyOf (upd x) = keyOf x) (hnew : keyOf mknew = key) (s : Str) :
    ∀ l : List α, (upsert keyOf key mknew upd l).any (fun x => decide (keyOf x = s))
      = (decide (key = s) || l.any (fun x => decide (keyOf x = s)))
  | [] => by simp [upsert, hupd, hnew]
  | x :: xs => by
    by_cases hx : keyOf x = key
    · simp only [upsert, hx, if_true, List.any_cons, hupd, Bool.or_assoc]
      cases h : decide (key = s) with
      | false =>
        have : decide (keyOf x = s) = false := by rw [hx]; exact h
        simp [this, h]
      | true => simp [h]
    · simp only [upsert, hx, if_false, List.any_cons]
      rw [upsert_any_name keyOf key mknew upd hupd hnew s xs]
      cases h1 : decide (keyOf x = s) <;> cases h2 : decide (key = s) <;> simp

lemma upsert_any_pair {α : Type} (keyOf : α → Str) (key : Str) (mknew : α) (upd : α → α)
    (q : α → Bool) (qd : Bool)
    (hupd : ∀ x, keyOf (upd x) = keyOf x) (hnew : keyOf mknew = key)
    (hq : ∀ x, q (upd x) = (qd || q x)) (hq0 : q mknew = false) (s : Str) :
    ∀ l : List α, (upsert keyOf key mknew upd l).any (fun x => decide (keyOf x = s) && q x)
      = ((decide (key = s) && qd) || l.any (fun x => decide (keyOf x = s) && q x))
  | [] => by simp [upsert, hupd, hnew, hq, hq0]
  | x :: xs => by
    by_cases hx : keyOf x = key
    · simp only [upsert, hx, if_true, List.any_cons, hupd, hq]
      cases h : decide (key = s) <;> cases hqd : qd <;> cases hqx : q x <;> simp [h, hqd, hqx]
    · simp only [upsert, hx, if_false, List.any_cons]
      rw [upsert_any_pair keyOf key mknew upd q qd hupd hnew hq hq0 s xs]
      cases h1 : decide (keyOf x = s) <;> cases h2 : decide (key = s) <;>
        cases hqd : qd <;> cases hqx : q x <;> simp

lemma hasSample_addFastqPath (proj : NGIProject) (pp : ParsedFastqPath) (s : Str) :
    hasSample (some (addFastqPath proj pp)) s
      = (decide (pp.sample_name = s) || hasSample (some proj) s) := by
  simp only [hasSample, addFastqPath]
  refine upsert_any_name (fun x => x.name) pp.sample_name _ _ ?_ ?_ s proj.samples
  · intro x; rfl
  · rfl

lemma hasLibprep_addFastqPath (proj : NGIProject) (pp : ParsedFastqPath) (s lp : Str) :
    hasLibprep (some (addFastqPath proj pp)) s lp
      = ((decide (pp.sample_name = s) && decide (pp.libprep_name = lp))
          || hasLibprep (some proj) s lp) := by
  simp only [hasLibprep, addFastqPath]
  refine upsert_any_pair (fun x => x.name) pp.sample_name _ _
    (fun x => x.libpreps.any (fun l => decide (l.name = lp)))
    (decide (pp.libprep_name = lp))
    ?_ ?_ ?_ ?_ s proj.samples
  · intro x; rfl
  · rfl
  · intro x
    refine upsert_any_name (fun l => l.name) pp.libprep_name _ _ ?_ ?_ lp x.libpreps
    · intro l; rfl
    · rfl
  · rfl

lemma hasSeqrun_addFastqPath (proj : NGIProject) (pp : ParsedFastqPath) (s lp sr : Str) :
    hasSeqrun (some (addFastqPath proj pp)) s lp sr
      = ((decide (pp.sample_name = s) && (decide (pp.libprep_name = lp)
            && decide (pp.seqrun_name = sr)))
          || hasSeqrun (some proj) s lp sr) := by
  simp only [hasSeqrun, addFastqPath]
  refine upsert_any_pair (fun x => x.name) pp.sample_name _ _
    (fun x => x.libpreps.any (fun l =>
      decide (l.name = lp) && l.seqruns.any (fun r => decide (r.name = sr))))
    (decide (pp.libprep_name = lp) && decide (pp.seqrun_name = sr))
    ?_ ?_ ?_ ?_ s proj.samples
  · intro x; rfl
  · rfl
  · intro x
    refine upsert_any_pair (fun l => l.name) pp.libprep_name _ _
      (fun l => l.seqruns.any (fun r => decide (r.name = sr)))
      (decide (pp.seqrun_name = sr))
      ?_ ?_ ?_ ?_ lp x.libpreps
    · intro l; rfl
    · rfl
    · intro l
      refine upsert_any_name (fun r => r.name) pp.seqrun_name _ _ ?_ ?_ sr l.seqruns
      · intro r; rfl
      · rfl
    · rfl
  · rfl

lemma hasSample_buildStep (acc : Option NGIProject) (p : Str) (s : Str) :
    hasSample (buildStep acc p) s
      = (hasSample acc s || decide ((parseFastqFilePath p).sample_name = s)) := by
  cases acc with
  | none =>
    simp only [buildStep, Option.getD_none]
    rw [hasSample_addFastqPath]
    simp [hasSample]
  | some proj =>
    simp only [buildStep, Option.getD_some]
    rw [hasSample_addFastqPath]
    exact Bool.or_comm _ _

lemma hasLibprep_buildStep (acc : Option NGIProject) (p : Str) (s lp : Str) :
    hasLibprep (buildStep acc p) s lp
      = (hasLibprep acc s lp
          || (decide ((parseFastqFilePath p).sample_name = s)
              && decide ((parseFastqFilePath p).libprep_name = lp))) := by
  cases acc with
  | none =>
    simp only [buildStep, Option.getD_none]
    rw [hasLibprep_addFastqPath]
    simp [hasLibprep]
  | some proj =>
    simp only [buildStep, Option.getD_some]
    rw [hasLibprep_addFastqPath]
    exact Bool.or_comm _ _

lemma hasSeqrun_buildStep (acc : Option NGIProject) (p : Str) (s lp sr : Str) :
    hasSeqrun (buildStep acc p) s lp sr
      = (hasSeqrun acc s lp sr
          || (decide ((parseFastqFilePath p).sample_name = s)
              && (decide ((parseFastqFilePath p).libprep_name = lp)
                  && decide ((parseFastqFilePath p).seqrun_name = sr)))) := by
  cases acc with
  | none =>
    simp only [buildStep, Option.getD_none]
    rw [hasSeqrun_addFastqPath]
    simp [hasSeqrun]
  | some proj =>
    simp only [buildStep, Option.getD_some]
    rw [hasSeqrun_addFastqPath]
    exact Bool.or_comm _ _

lemma hasSample_foldl (s : Str) :
    ∀ (ps : List Str) (acc : Option NGIProject),
      hasSample (ps.foldl buildStep acc) s
        = (hasSample acc s || ps.any (fun p => decide ((parseFastqFilePath p).sample_name = s)))
  | [], acc => by simp
  | p :: ps, acc => by
    simp only [List.foldl_cons, List.any_cons]
    rw [hasSample_foldl s ps (buildStep acc p), hasSample_buildStep]
    cases hasSample acc s <;> simp [Bool.or_assoc]

lemma hasLibprep_foldl (s lp : Str) :
    ∀ (ps : List Str) (acc : Option NGIProject),
      hasLibprep (ps.foldl buildStep acc) s lp
        = (hasLibprep acc s lp || ps.any (fun p =>
            decide ((parseFastqFilePath p).sample_name = s)
              && decide ((parseFastqFilePath p).libprep_name = lp)))
  | [], acc => by simp
  | p :: ps, acc => by
    simp only [List.foldl_cons, List.any_cons]
    rw [hasLibprep_foldl s lp ps (buildStep acc p), hasLibprep_buildStep]
    cases hasLibprep acc s lp <;> simp [Bool.or_assoc]

lemma hasSeqrun_foldl (s lp sr : Str) :
    ∀ (ps : List Str) (acc : Option NGIProject),
      hasSeqrun (ps.foldl buildStep acc) s lp sr
        = (hasSeqrun acc s lp sr || ps.any (fun p =>
            decide ((parseFastqFilePath p).sample_name = s)
              && (decide ((parseFastqFilePath p).libprep_name = lp)
                  && decide ((parseFastqFilePath p).seqrun_name = sr))))
  | [], acc => by simp
  | p :: ps, acc => by
    simp only [List.foldl_cons, List.any_cons]
    rw [hasSeqrun_foldl s lp sr ps (buildStep acc p), hasSeqrun_buildStep]
    cases hasSeqrun acc s lp sr <;> simp [Bool.or_assoc]

lemma hasSample_build (ps : List Str) (s : Str) :
    hasSample (_project_from_fastq_file_paths ps) s
      = ps.any (fun p => decide ((parseFastqFilePath p).sample_name = s)) := by
  unfold _project_from_fastq_file_paths
  rw [hasSample_foldl]
  simp [hasSample]

lemma hasLibprep_build (ps : List Str) (s lp : Str) :
    hasLibprep (_project_from_fastq_file_paths ps) s lp
      = ps.any (fun p => decide ((parseFastqFilePath p).sample_name = s)
          && decide ((parseFastqFilePath p).libprep_name = lp)) := by
  unfold _project_from_fastq_file_paths
  rw [hasLibprep_foldl]
  simp [hasLibprep]

lemma hasSeqrun_build (ps : List Str) (s lp sr : Str) :
    hasSeqrun (_project_from_fastq_file_paths ps) s lp sr
      = ps.any (fun p => decide ((parseFastqFilePath p).sample_name = s)
          && (decide ((parseFastqFilePath p).libprep_name = lp)
              && decide ((parseFastqFilePath p).seqrun_name = sr))) := by
  unfold _project_from_fastq_file_paths
  rw [hasSeqrun_foldl]
  simp [hasSeqrun]

lemma perm_any {α : Type} {l₁ l₂ : List α} (h : l₁.Perm l₂) (f : α → Bool) :
    l₁.any f = l₂.any f := by
  induction h with
  | nil => rfl
  | cons x _ ih => simp [ih]
  | swap x y l => simp only [List.any_cons]; cases f x <;> cases f y <;> simp
  | trans _ _ ih1 ih2 => rw [ih1, ih2]

lemma processOne_shape (env : Env) (a : Analysis) :
    ((processOne env a).2 = [] ∧ (processOne env a).1 ≠ Except.ok ()) ∨
    (∃ st lps srs, (processOne env a).2 = [Event.publish a st lps srs false]
        ∧ (processOne env a).1 = Except.error PyError.charonError) ∨
    (∃ st lps srs, (processOne env a).2
          = Event.publish a st lps srs true :: remove_analysis a (env.probe a) false
        ∧ (processOne env a).1 = Except.ok ()) := by
  unfold processOne
  dsimp only
  split
  · left; exact ⟨rfl, by simp⟩
  · split
    · left; exact ⟨rfl, by simp⟩
    · by_cases hok : env.publish_ok a = true
      · right; right
        rw [if_pos hok, hok]
        exact ⟨_, _, _, rfl, rfl⟩
      · right; left
        rw [if_neg hok]
        rw [Bool.not_eq_true] at hok
        rw [hok]
        exact ⟨_, _, _, rfl, rfl⟩

lemma removeCount_append (a : Analysis) (u v : List Event) :
    removeCount a (u ++ v) = removeCount a u + removeCount a v :=
  List.countP_append _ u v

lemma remove_analysis_removeCount_self (a : Analysis) (st : ProcessOutcome) :
    removeCount a (remove_analysis a st false)
      = if st = ProcessOutcome.running then 0 else 1 := by
  unfold remove_analysis removeCount
  by_cases h : st = ProcessOutcome.running <;> simp [h]

lemma remove_analysis_removeCount_ne {b a : Analysis} (hne : b ≠ a)
    (st : ProcessOutcome) (force : Bool) :
    removeCount a (remove_analysis b st force) = 0 := by
  unfold remove_analysis removeCount
  split <;> simp [hne]

lemma processOne_removeCount_ne (env : Env) {b a : Analysis} (hne : b ≠ a) :
    removeCount a (processOne env b).2 = 0 := by
  rcases processOne_shape env b with ⟨h, _⟩ | ⟨st, lps, srs, h, _⟩ | ⟨st, lps, srs, h, _⟩ <;>
    rw [h]
  · rfl
  · simp [removeCount]
  · simp only [removeCount, List.countP_cons]
    have := remove_analysis_removeCount_ne hne (env.probe b) false
    unfold removeCount at this
    simp [this]

lemma processOne_removeCount_ok (env : Env) (a : Analysis)
    (h : (processOne env a).1 = Except.ok ()) :
    removeCount a (processOne env a).2
      = if env.probe a = ProcessOutcome.running then 0 else 1 := by
  rcases processOne_shape env a with ⟨htr, hr⟩ | ⟨st, lps, srs, htr, hr⟩ |
      ⟨st, lps, srs, htr, hr⟩
  · exact absurd h hr
  · rw [hr] at h; cases h
  · rw [htr]
    simp only [removeCount, List.countP_cons]
    have := remove_analysis_removeCount_self a (env.probe a)
    unfold removeCount at this
    simp [this]

lemma processOne_removeCount_running (env : Env) (a : Analysis)
    (h : env.probe a = ProcessOutcome.running) :
    removeCount a (processOne env a).2 = 0 := by
  rcases processOne_shape env a with ⟨htr, hr⟩ | ⟨st, lps, srs, htr, hr⟩ |
      ⟨st, lps, srs, htr, hr⟩ <;> rw [htr]
  · rfl
  · simp [removeCount]
  · simp only [removeCount, List.countP_cons]
    rw [h]
    simp [remove_analysis]

lemma workflow_removeCount_notMem (env : Env) (a : Analysis) :
    ∀ as : List Analysis, a ∉ as →
      removeCount a (update_charon_with_local_jobs_status env as).2 = 0
  | [], _ => rfl
  | b :: rest, hmem => by
    have hne : b ≠ a := fun hh => hmem (hh ▸ List.mem_cons_self b rest)
    have hrest : a ∉ rest := fun hh => hmem (List.mem_cons_of_mem b hh)
    simp only [update_charon_with_local_jobs_status]
    rcases hpb : processOne env b with ⟨r, evs⟩
    have hevs : removeCount a evs = 0 := by
      have := processOne_removeCount_ne env hne
      rw [hpb] at this
      exact this
    cases r with
    | ok u =>
      simp only
      rw [removeCount_append, hevs, workflow_removeCount_notMem env a rest hrest]
    | error e => simpa using hevs

lemma removedIn_append (a : Analysis) (u v : List Event) :
    removedIn a (u ++ v) = (removedIn a u || removedIn a v) :=
  List.any_append

lemma publishedOkIn_append (a : Analysis) (u v : List Event) :
    publishedOkIn a (u ++ v) = (publishedOkIn a u || publishedOkIn a v) :=
  List.any_append

lemma processOne_take_shape (env : Env) (b a : Analysis) (n : Nat) :
    removedIn a (((processOne env b).2).take n) = true →
      publishedOkIn a (((processOne env b).2).take n) = true := by
  rcases processOne_shape env b with ⟨htr, _⟩ | ⟨st, lps, srs, htr, _⟩ |
      ⟨st, lps, srs, htr, _⟩ <;> rw [htr]
  · simp [removedIn]
  · intro h
    exfalso
    cases n with
    | zero => simp [removedIn] at h
    | succ m => simp [removedIn] at h
  · unfold remove_analysis
    split
    · intro h
      exfalso
      cases n with
      | zero => simp [removedIn] at h
      | succ m => simp [removedIn] at h
    · cases n with
      | zero => intro h; simp [removedIn] at h
      | succ m => cases m with
        | zero => intro h; simp [removedIn] at h
        | succ k =>
          intro h
          simp only [removedIn, List.take_succ_cons, List.take_nil, List.any_cons,
            List.any_nil] at h
          simp only [publishedOkIn, List.take_succ_cons, List.take_nil, List.any_cons,
            List.any_nil]
          simp at h
          simp [h]

lemma workflow_take_remove_publish (env : Env) (a : Analysis) :
    ∀ (as : List Analysis) (n : Nat) (r : Except PyError Unit) (tr : List Event),
      update_charon_with_local_jobs_status env as = (r, tr) →
      removedIn a (tr.take n) = true → publishedOkIn a (tr.take n) = true
  | [], n, r, tr, hrun, hrem => by
    cases hrun
    simp [removedIn] at hrem
  | b :: rest, n, r, tr, hrun, hrem => by
    simp only [update_charon_with_local_jobs_status] at hrun
    rcases hpb : processOne env b with ⟨r0, evs⟩
    rw [hpb] at hrun
    cases r0 with
    | error e =>
      simp only at hrun
      cases hrun
      have hblock := processOne_take_shape env b a n
      rw [hpb] at hblock
      exact hblock hrem
    | ok u =>
      rcases hrest : update_charon_with_local_jobs_status env rest with ⟨r1, tr1⟩
      rw [hrest] at hrun
      simp only at hrun
      cases hrun
      rw [List.take_append_eq_append_take] at hrem ⊢
      rw [removedIn_append] at hrem
      rw [publishedOkIn_append]
      rcases Bool.or_eq_true_iff.mp hrem with h | h
      · have hblock := processOne_take_shape env b a n
        rw [hpb] at hblock
        rw [hblock h]
        rfl
      · rw [workflow_take_remove_publish env a rest (n - evs.length) _ _ hrest h]
        simp

lemma workflow_remove_spec (env : Env) (a : Analysis) :
    ∀ (as : List Analysis) (r : Except PyError Unit) (tr : List Event),
      update_charon_with_local_jobs_status env as = (r, tr) →
      as.Nodup → a ∈ as →
      ((r = Except.ok () →
        removeCount a tr = if env.probe a = ProcessOutcome.running then 0 else 1) ∧
      (env.probe a = ProcessOutcome.running → removeCount a tr = 0))
  | [], r, tr, hrun, hnd, ha => absurd ha (List.not_mem_nil a)
  | b :: rest, r, tr, hrun, hnd, ha => by
    simp only [update_charon_with_local_jobs_status] at hrun
    rcases hpb : processOne env b with ⟨r0, evs⟩
    rw [hpb] at hrun
    have hbnr : b ∉ rest := (List.nodup_cons.mp hnd).1
    have hndr : rest.Nodup := (List.nodup_cons.mp hnd).2
    cases r0 with
    | error e =>
      simp only at hrun
      cases hrun
      constructor
      · intro hok; exact absurd hok (by simp)
      · intro hruna
        rcases List.mem_cons.mp ha with hab | har
        · subst hab
          have hthis := processOne_removeCount_running env a hruna
          rw [hpb] at hthis
          exact hthis
        · have hne : b ≠ a := fun hh => hbnr (hh ▸ har)
          have hthis := processOne_removeCount_ne env hne
          rw [hpb] at hthis
          exact hthis
    | ok u =>
      rcases hrest : update_charon_with_local_jobs_status env rest with ⟨r1, tr1⟩
      rw [hrest] at hrun
      simp only at hrun
      cases hrun
      rw [removeCount_append]
      rcases List.mem_cons.mp ha with hab | har
      · subst hab
        have htr1 : removeCount a tr1 = 0 := by
          have hthis := workflow_removeCount_notMem env a rest hbnr
          rw [hrest] at hthis
          exact hthis
        constructor
        · intro hok
          have hpo : (processOne env a).1 = Except.ok () := by rw [hpb]
          have hthis := processOne_removeCount_ok env a hpo
          rw [hpb] at hthis
          simp only at hthis
          rw [htr1, hthis]
          simp
        · intro hruna
          have hthis := processOne_removeCount_running env a hruna
          rw [hpb] at hthis
          simp only at hthis
          rw [htr1, hthis]
      · have hne : b ≠ a := fun hh => hbnr (hh ▸ har)
        have hevs : removeCount a evs = 0 := by
          have hthis := processOne_removeCount_ne env hne
          rw [hpb] at hthis
          exact hthis
        have IH := workflow_remove_spec env a rest _ _ hrest hndr har
        constructor
        · intro hok
          rw [hevs, IH.1 hok]
          simp
        · intro hruna
          rw [hevs, IH.2 hruna]

lemma foldl_buildStep_some :
    ∀ (ps : List Str) (proj : NGIProject),
      ∃ proj2, ps.foldl buildStep (some proj) = some proj2 ∧ proj2.name = proj.name
  | [], proj => ⟨proj, rfl, rfl⟩
  | p :: ps, proj => by
    simp only [List.foldl_cons]
    have hstep : buildStep (some proj) p
        = some (addFastqPath proj (parseFastqFilePath p)) := rfl
    rw [hstep]
    obtain ⟨proj2, h1, h2⟩ :=
      foldl_buildStep_some ps (addFastqPath proj (parseFastqFilePath p))
    exact ⟨proj2, h1, by rw [h2]; rfl⟩

/-- C1: for every tracked analysis processed by the workflow, if the
probed status is not `Running` the tracking store's remove is called
exactly once for that analysis, and if it is `Running` the store is not
mutated for it at all (`remove_analysis` with `force=False` returns
without calling remove). Stated over any completed run of
`update_charon_with_local_jobs_status` on duplicate-free tracked
analyses; the `Running` clause holds even for runs that end in an
error. -/
theorem workflow_remove_iff_not_running
    (env : Env) (as : List Analysis) (r : Except PyError Unit) (tr : List Event)
    (a : Analysis)
    (hrun : update_charon_with_local_jobs_status env as = (r, tr))
    (hnd : as.Nodup) (ha : a ∈ as) :
    (r = Except.ok () →
      removeCount a tr = if env.probe a = ProcessOutcome.running then 0 else 1) ∧
    (env.probe a = ProcessOutcome.running → removeCount a tr = 0) :=
  workflow_remove_spec env a as r tr hrun hnd ha

theorem workflow_remove_iff_not_running_witness :
    removeCount exA2 (update_charon_with_local_jobs_status exEnv [exA2]).2
      = if exEnv.probe exA2 = ProcessOutcome.running then 0 else 1 :=
  (workflow_remove_iff_not_running exEnv [exA2]
    (update_charon_with_local_jobs_status exEnv [exA2]).1
    (update_charon_with_local_jobs_status exEnv [exA2]).2
    exA2 rfl (by decide) (by decide)).1 (by decide)

/-- C2: in any run of the workflow, a remove call for an analysis never
occurs before a successful publish (`set_sample_analysis_status`) call
for that same analysis: every initial segment of the trace that contains
the remove also contains a successful publish. In particular, when the
publish call fails the local record is not removed in that pass. -/
theorem remove_never_before_successful_publish
    (env : Env) (as : List Analysis) (r : Except PyError Unit) (tr : List Event)
    (a : Analysis) (n : Nat)
    (hrun : update_charon_with_local_jobs_status env as = (r, tr))
    (hrem : removedIn a (tr.take n) = true) :
    publishedOkIn a (tr.take n) = true :=
  workflow_take_remove_publish env a as n r tr hrun hrem

theorem remove_never_before_successful_publish_witness :
    publishedOkIn exA2
      (((update_charon_with_local_jobs_status exEnv [exA2]).2).take 2) = true :=
  remove_never_before_successful_publish exEnv [exA2]
    (update_charon_with_local_jobs_status exEnv [exA2]).1
    (update_charon_with_local_jobs_status exEnv [exA2]).2
    exA2 2 rfl (by decide)

/-- C3 (counterexample): the loop body of
`update_charon_with_local_jobs_status` has no exception handler, so a
failure in one analysis's iteration is not logged-and-skipped. In the
concrete environment `exEnv`, the analysis `exA1` fails (its fastq list
is empty, so iterating the `None` project raises `TypeError`), and the
analysis `exA2` — which is attempted and succeeds when processed alone —
is never attempted when it follows `exA1` in the batch. -/
theorem one_failure_aborts_batch_counterexample :
    (update_charon_with_local_jobs_status exEnv [exA1, exA2]).1
        = Except.error PyError.typeError ∧
    attemptedIn exA2 (update_charon_with_local_jobs_status exEnv [exA1, exA2]).2
        = false ∧
    (update_charon_with_local_jobs_status exEnv [exA2]).1 = Except.ok () ∧
    attemptedIn exA2 (update_charon_with_local_jobs_status exEnv [exA2]).2
        = true := by
  decide

/-- C3 (amended): an error raised in one analysis's iteration propagates
out of `update_charon_with_local_jobs_status`: the pass ends with that
error, its trace is exactly the failing iteration's trace, and the
remaining tracked analyses are not attempted. -/
theorem workflow_error_propagates (env : Env) (a : Analysis) (rest : List Analysis)
    (e : PyError) (evs : List Event)
    (h : processOne env a = (Except.error e, evs)) :
    update_charon_with_local_jobs_status env (a :: rest) = (Except.error e, evs) := by
  simp only [update_charon_with_local_jobs_status]
  rw [h]

theorem workflow_error_propagates_witness :
    update_charon_with_local_jobs_status exEnv [exA1, exA2]
      = (Except.error PyError.typeError, []) :=
  workflow_error_propagates exEnv exA1 [exA2] PyError.typeError [] (by decide)

/-- C4 (counterexample): on the concrete path
`/base/data/proj/s1/lp1/sr1/f.fastq.gz` the parser takes seqrun, libprep,
sample and project directory names from the expected segments, but the
project base path it computes is `/base` — the parent of the PARENT of
the project directory — and not `/base/data`, the parent of the project
directory, as the claim states. -/
theorem project_base_path_counterexample :
    (parseFastqFilePath "/base/data/proj/s1/lp1/sr1/f.fastq.gz".toList).seqrun_name
        = "sr1".toList ∧
    (parseFastqFilePath "/base/data/proj/s1/lp1/sr1/f.fastq.gz".toList).libprep_name
        = "lp1".toList ∧
    (parseFastqFilePath "/base/data/proj/s1/lp1/sr1/f.fastq.gz".toList).sample_name
        = "s1".toList ∧
    (parseFastqFilePath "/base/data/proj/s1/lp1/sr1/f.fastq.gz".toList).project_name
        = "proj".toList ∧
    os_path_dirname
        ((parseFastqFilePath "/base/data/proj/s1/lp1/sr1/f.fastq.gz".toList).project_path)
        = "/base/data".toList ∧
    (parseFastqFilePath "/base/data/proj/s1/lp1/sr1/f.fastq.gz".toList).project_base_path
        = "/base".toList ∧
    ¬ ((parseFastqFilePath "/base/data/proj/s1/lp1/sr1/f.fastq.gz".toList).project_base_path
        = os_path_dirname
            ((parseFastqFilePath "/base/data/proj/s1/lp1/sr1/f.fastq.gz".toList).project_path)) := by
  decide

/-- C4 (amended): for a well-formed seven-part fastq path
`b/dd/pr/sm/lp/sr/f` the parser takes the segment immediately containing
the file as the seqrun name, its parent as the libprep name, the next
parent as the sample name, the next as the project directory name, and
the PARENT OF THE PARENT of the project directory (`b`, the head above
the data directory `dd`) as the project base path. -/
theorem parse_fastq_path_segments (b dd pr sm lp sr f : Str)
    (hb1 : b ≠ []) (hb2 : b.getLast? ≠ some '/')
    (hdd : dd ≠ []) (hdd2 : '/' ∉ dd)
    (hpr : pr ≠ []) (hpr2 : '/' ∉ pr)
    (hsm : sm ≠ []) (hsm2 : '/' ∉ sm)
    (hlp : lp ≠ []) (hlp2 : '/' ∉ lp)
    (hsr : sr ≠ []) (hsr2 : '/' ∉ sr)
    (hf : '/' ∉ f) :
    parseFastqFilePath
        (joinSeg b (joinSeg dd (joinSeg pr (joinSeg sm (joinSeg lp (joinSeg sr f)))))) =
      { seqrun_path := joinSeg b (joinSeg dd (joinSeg pr (joinSeg sm (joinSeg lp sr))))
        fastq_file_name := f
        libprep_path := joinSeg b (joinSeg dd (joinSeg pr (joinSeg sm lp)))
        seqrun_name := sr
        sample_path := joinSeg b (joinSeg dd (joinSeg pr sm))
        libprep_name := lp
        project_path := joinSeg b (joinSeg dd pr)
        sample_name := sm
        project_data_path := joinSeg b dd
        project_name := pr
        project_base_path := b } := by
  have a5 : joinSeg b (joinSeg dd (joinSeg pr (joinSeg sm (joinSeg lp (joinSeg sr f)))))
      = joinSeg (joinSeg (joinSeg (joinSeg (joinSeg b dd) pr) sm) lp) (joinSeg sr f) := by
    simp [joinSeg, List.append_assoc]
  have a5b : joinSeg (joinSeg (joinSeg (joinSeg (joinSeg b dd) pr) sm) lp) (joinSeg sr f)
      = joinSeg (joinSeg (joinSeg (joinSeg (joinSeg (joinSeg b dd) pr) sm) lp) sr) f := by
    simp [joinSeg, List.append_assoc]
  have s1 : pySplit
      (joinSeg b (joinSeg dd (joinSeg pr (joinSeg sm (joinSeg lp (joinSeg sr f))))))
      = (joinSeg (joinSeg (joinSeg (joinSeg (joinSeg b dd) pr) sm) lp) sr, f) := by
    rw [a5, a5b]
    exact pySplit_joinSeg _ _ (joinSeg_ne_nil _ _)
      (by rw [joinSeg_getLast? _ _ hsr]; exact getLast?_ne_slash hsr hsr2) hf
  have s2 : pySplit (joinSeg (joinSeg (joinSeg (joinSeg (joinSeg b dd) pr) sm) lp) sr)
      = (joinSeg (joinSeg (joinSeg (joinSeg b dd) pr) sm) lp, sr) :=
    pySplit_joinSeg _ _ (joinSeg_ne_nil _ _)
      (by rw [joinSeg_getLast? _ _ hlp]; exact getLast?_ne_slash hlp hlp2) hsr2
  have s3 : pySplit (joinSeg (joinSeg (joinSeg (joinSeg b dd) pr) sm) lp)
      = (joinSeg (joinSeg (joinSeg b dd) pr) sm, lp) :=
    pySplit_joinSeg _ _ (joinSeg_ne_nil _ _)
      (by rw [joinSeg_getLast? _ _ hsm]; exact getLast?_ne_slash hsm hsm2) hlp2
  have s4 : pySplit (joinSeg (joinSeg (joinSeg b dd) pr) sm)
      = (joinSeg (joinSeg b dd) pr, sm) :=
    pySplit_joinSeg _ _ (joinSeg_ne_nil _ _)
      (by rw [joinSeg_getLast? _ _ hpr]; exact getLast?_ne_slash hpr hpr2) hsm2
  have s5 : pySplit (joinSeg (joinSeg b dd) pr) = (joinSeg b dd, pr) :=
    pySplit_joinSeg _ _ (joinSeg_ne_nil _ _)
      (by rw [joinSeg_getLast? _ _ hdd]; exact getLast?_ne_slash hdd hdd2) hpr2
  have s6 : pySplit (joinSeg b dd) = (b, dd) :=
    pySplit_joinSeg _ _ hb1 hb2 hdd2
  simp only [parseFastqFilePath, os_path_dirname, s1, s2, s3, s4, s5, s6]
  simp [joinSeg, List.append_assoc]

theorem parse_fastq_path_segments_witness :
    parseFastqFilePath
        (joinSeg "/base".toList (joinSeg "data".toList (joinSeg "proj".toList
          (joinSeg "s1".toList (joinSeg "lp1".toList (joinSeg "sr1".toList
            "f.fastq.gz".toList)))))) =
      { seqrun_path := joinSeg "/base".toList (joinSeg "data".toList
          (joinSeg "proj".toList (joinSeg "s1".toList (joinSeg "lp1".toList "sr1".toList))))
        fastq_file_name := "f.fastq.gz".toList
        libprep_path := joinSeg "/base".toList (joinSeg "data".toList
          (joinSeg "proj".toList (joinSeg "s1".toList "lp1".toList)))
        seqrun_name := "sr1".toList
        sample_path := joinSeg "/base".toList (joinSeg "data".toList
          (joinSeg "proj".toList "s1".toList))
        libprep_name := "lp1".toList
        project_path := joinSeg "/base".toList (joinSeg "data".toList "proj".toList)
        sample_name := "s1".toList
        project_data_path := joinSeg "/base".toList "data".toList
        project_name := "proj".toList
        project_base_path := "/base".toList } :=
  parse_fastq_path_segments "/base".toList "data".toList "proj".toList "s1".toList
    "lp1".toList "sr1".toList "f.fastq.gz".toList
    (by decide) (by decide) (by decide) (by decide) (by decide) (by decide)
    (by decide) (by decide) (by decide) (by decide) (by decide) (by decide)
    (by decide)

/-- C5 (counterexample): on the empty input the project reconstructor
does not signal an error — it returns the initial `None`
(`project_obj` is never assigned), a plain non-error result. -/
theorem empty_input_returns_none_counterexample :
    _project_from_fastq_file_paths [] = none := rfl

/-- C5 (amended): on an empty fastq path list the reconstructor returns
`None` without raising; the failure only surfaces in the caller, where
iterating over the `None` project (`filter` over it) raises `TypeError`
before any collaborator call is made. -/
theorem empty_input_none_then_caller_fails (env : Env) (a : Analysis)
    (h : env.fastq_file_paths_for a = []) :
    _project_from_fastq_file_paths (env.fastq_file_paths_for a) = none ∧
    processOne env a = (Except.error PyError.typeError, []) := by
  constructor
  · rw [h]
    rfl
  · unfold processOne project_from_analysis
    rw [h]
    rfl

theorem empty_input_none_then_caller_fails_witness :
    _project_from_fastq_file_paths (exEnv.fastq_file_paths_for exA1) = none ∧
    processOne exEnv exA1 = (Except.error PyError.typeError, []) :=
  empty_input_none_then_caller_fails exEnv exA1 (by decide)

/-- C6: the project reconstructor is order-independent: for any
permutation of the input fastq path sequence, the reconstructed
hierarchies have identical sample name sets, identical libprep name sets
under each sample name, and identical seqrun name sets under each
sample/libprep name pair. -/
theorem reconstructor_order_independent (ps qs : List Str) (h : ps.Perm qs) :
    (∀ s, hasSample (_project_from_fastq_file_paths ps) s
        = hasSample (_project_from_fastq_file_paths qs) s) ∧
    (∀ s lp, hasLibprep (_project_from_fastq_file_paths ps) s lp
        = hasLibprep (_project_from_fastq_file_paths qs) s lp) ∧
    (∀ s lp sr, hasSeqrun (_project_from_fastq_file_paths ps) s lp sr
        = hasSeqrun (_project_from_fastq_file_paths qs) s lp sr) := by
  refine ⟨fun s => ?_, fun s lp => ?_, fun s lp sr => ?_⟩
  · rw [hasSample_build, hasSample_build]
    exact perm_any h _
  · rw [hasLibprep_build, hasLibprep_build]
    exact perm_any h _
  · rw [hasSeqrun_build, hasSeqrun_build]
    exact perm_any h _

theorem reconstructor_order_independent_witness :
    (∀ s, hasSample (_project_from_fastq_file_paths
          ["/b/d/p/s1/l1/r1/f1".toList, "/b/d/p/s2/l2/r2/f2".toList]) s
        = hasSample (_project_from_fastq_file_paths
          ["/b/d/p/s2/l2/r2/f2".toList, "/b/d/p/s1/l1/r1/f1".toList]) s) ∧
    (∀ s lp, hasLibprep (_project_from_fastq_file_paths
          ["/b/d/p/s1/l1/r1/f1".toList, "/b/d/p/s2/l2/r2/f2".toList]) s lp
        = hasLibprep (_project_from_fastq_file_paths
          ["/b/d/p/s2/l2/r2/f2".toList, "/b/d/p/s1/l1/r1/f1".toList]) s lp) ∧
    (∀ s lp sr, hasSeqrun (_project_from_fastq_file_paths
          ["/b/d/p/s1/l1/r1/f1".toList, "/b/d/p/s2/l2/r2/f2".toList]) s lp sr
        = hasSeqrun (_project_from_fastq_file_paths
          ["/b/d/p/s2/l2/r2/f2".toList, "/b/d/p/s1/l1/r1/f1".toList]) s lp sr) :=
  reconstructor_order_independent
    ["/b/d/p/s1/l1/r1/f1".toList, "/b/d/p/s2/l2/r2/f2".toList]
    ["/b/d/p/s2/l2/r2/f2".toList, "/b/d/p/s1/l1/r1/f1".toList]
    (by decide)

/-- C7: `get_analysis_status` hands the prober a call whose kind is the
OS-process prober exactly when `analysis.process_id` is set and the
batch-job prober otherwise, and whose exit-code marker path is the
path-convention collaborator applied to the analysis's workflow, project
base path, project id and sample id — hence equal for any two analyses
agreeing on those four fields. -/
theorem status_probe_selection_and_path (pc : PathConventions)
    (probe : ProbeCall → ProcessOutcome) (a b : Analysis) :
    get_analysis_status pc probe a = probe (analysis_probe_call pc a) ∧
    ((analysis_probe_call pc a).status_kind = StatusKind.process ↔ a.process_id ≠ none) ∧
    ((analysis_probe_call pc a).status_kind = StatusKind.job ↔ a.process_id = none) ∧
    ((analysis_probe_call pc a).exit_code_path
        = pc.sample_analysis_exit_code_path a.workflow a.project_base_path
            a.project_id a.sample_id) ∧
    (a.workflow = b.workflow → a.project_base_path = b.project_base_path →
      a.project_id = b.project_id → a.sample_id = b.sample_id →
      (analysis_probe_call pc a).exit_code_path
        = (analysis_probe_call pc b).exit_code_path) := by
  refine ⟨rfl, ?_, ?_, rfl, ?_⟩
  · rcases hpid : a.process_id with _ | v <;> simp [analysis_probe_call, hpid]
  · rcases hpid : a.process_id with _ | v <;> simp [analysis_probe_call, hpid]
  · intro h1 h2 h3 h4
    unfold analysis_probe_call
    simp only
    rw [h1, h2, h3, h4]

theorem status_probe_selection_and_path_witness :
    (analysis_probe_call exPathConv exA1).exit_code_path
      = (analysis_probe_call exPathConv
          { exA1 with process_id := none, slurm_job_id := some 7 }).exit_code_path :=
  (status_probe_selection_and_path exPathConv (fun _ => ProcessOutcome.finishedOk)
    exA1 { exA1 with process_id := none, slurm_job_id := some 7 }).2.2.2.2
    rfl rfl rfl rfl

/-- C8: `remove_analysis` called with `force=True` calls the tracking
store's remove even when the status is `ProcessRunning`, and with
`force=False` it leaves the store untouched exactly when the status
equals `ProcessRunning`. -/
theorem remove_analysis_force_semantics (a : Analysis) (st : ProcessOutcome) :
    remove_analysis a st true = [Event.remove a] ∧
    (remove_analysis a st false = [] ↔ st = ProcessOutcome.running) := by
  constructor
  · unfold remove_analysis
    simp
  · unfold remove_analysis
    by_cases h : st = ProcessOutcome.running <;> simp [h]

/-- C9: the identifier passed to the prober is the Python expression
`analysis.process_id or analysis.slurm_job_id`; for an analysis whose
`process_id` is the falsy value `0` with no `slurm_job_id`, the
OS-process prober is selected (`process_id is not None`) but the
identifier handed to it is `None` rather than `0`. -/
theorem probe_call_zero_process_id (pc : PathConventions) (a : Analysis)
    (h0 : a.process_id = some 0) (hs : a.slurm_job_id = none) :
    (analysis_probe_call pc a).status_kind = StatusKind.process ∧
    (analysis_probe_call pc a).processid_or_jobid = none := by
  simp [analysis_probe_call, pyOrIds, h0, hs]

theorem probe_call_zero_process_id_witness :
    (analysis_probe_call exPathConv exA0).status_kind = StatusKind.process ∧
    (analysis_probe_call exPathConv exA0).processid_or_jobid = none :=
  probe_call_zero_process_id exPathConv exA0 (by decide) (by decide)

lemma addFastqPath_name (proj : NGIProject) (pp : ParsedFastqPath) :
    (addFastqPath proj pp).name = proj.name := rfl

/-- C10: for every non-empty input the reconstructor returns exactly one
project object, whose name is the project segment of the FIRST path;
the samples, libpreps and seqruns parsed from every path — including
later paths whose project segment differs — are merged into that single
project: a sample name is present iff some input path carries it, a
libprep name is present under a sample name iff some input path carries
that sample/libprep pair, and a seqrun name is present under a
sample/libprep pair iff some input path carries that triple. -/
theorem single_project_merges_all_paths (p : Str) (ps : List Str) :
    ∃ proj, _project_from_fastq_file_paths (p :: ps) = some proj
      ∧ proj.name = (parseFastqFilePath p).project_name
      ∧ (∀ s, hasSample (some proj) s
          = (p :: ps).any (fun q => decide ((parseFastqFilePath q).sample_name = s)))
      ∧ (∀ s lp, hasLibprep (some proj) s lp
          = (p :: ps).any (fun q => decide ((parseFastqFilePath q).sample_name = s)
              && decide ((parseFastqFilePath q).libprep_name = lp)))
      ∧ (∀ s lp sr, hasSeqrun (some proj) s lp sr
          = (p :: ps).any (fun q => decide ((parseFastqFilePath q).sample_name = s)
              && (decide ((parseFastqFilePath q).libprep_name = lp)
                  && decide ((parseFastqFilePath q).seqrun_name = sr)))) := by
  obtain ⟨proj, h1, h2⟩ := foldl_buildStep_some ps
    (addFastqPath
      { name := (parseFastqFilePath p).project_name
        dirname := (parseFastqFilePath p).project_name
        project_id := (parseFastqFilePath p).project_name
        base_path := (parseFastqFilePath p).project_base_path
        samples := [] }
      (parseFastqFilePath p))
  have hbuild : _project_from_fastq_file_paths (p :: ps) = some proj := by
    unfold _project_from_fastq_file_paths
    rw [List.foldl_cons]
    exact h1
  refine ⟨proj, hbuild, ?_, fun s => ?_, fun s lp => ?_, fun s lp sr => ?_⟩
  · rw [h2, addFastqPath_name]
  · rw [← hbuild]
    exact hasSample_build (p :: ps) s
  · rw [← hbuild]
    exact hasLibprep_build (p :: ps) s lp
  · rw [← hbuild]
    exact hasSeqrun_build (p :: ps) s lp sr
